import Mathlib

/-!
Verification of the FanPico tachometer-sampling and signal-filter core.

The development shallowly embeds two C translation units:

* the tachometer code (interrupt pulse-counting callback and the polled
  frequency sampler), and
* the PWM signal filter framework (registry dispatch plus the lossy-peak
  decaying peak-hold filter).

Modelling conventions: C unsigned 32-bit counters are natural numbers
reduced mod 2 ^ 32 at the operations where the hardware wraps;
C float/double values are exact rationals; monotonic microsecond
timestamps are integers; C strings are lists of characters; fallible C
functions returning NULL are embedded with Option.
-/

/-- Wraparound 32-bit unsigned subtraction: the value of the C expression
a - b evaluated on 32-bit unsigned integers (as in the sampler line
pulses = counters[i] - fan_tacho_counters_last[i]). -/
def wsub32 (a b : ℕ) : ℕ :=
  (a + 2 ^ 32 - b % 2 ^ 32) % 2 ^ 32

/-- Number of fan tachometer input channels (FAN_MAX_COUNT). -/
def FAN_MAX_COUNT : ℕ := 8

/-- The global tachometer state of tacho.c: the interrupt-updated pulse
counters, the sampler baselines fan_tacho_counters_last, the timestamp of
the last accepted sample fan_tacho_last_read, and the derived
frequencies fan_tacho_freq.  The C arrays are embedded as total maps on
indices; only indices below FAN_MAX_COUNT are ever touched. -/
structure TachoMem where
  fan_tacho_counters : ℕ → ℕ
  fan_tacho_counters_last : ℕ → ℕ
  fan_tacho_last_read : ℤ
  fan_tacho_freq : ℕ → ℚ

/-- Edge-interrupt handler fan_tacho_read_callback: look the GPIO pin up
in gpio_fan_tacho_map (the C code masks the pin with 0x1f, i.e. reduces
it mod 32); a non-zero entry value fan increments the pulse counter of
channel fan - 1 (a 32-bit unsigned increment, hence mod 2 ^ 32); a zero
entry leaves everything unchanged. -/
def fan_tacho_read_callback (gpio_fan_tacho_map : ℕ → ℕ) (gpio : ℕ)
    (m : TachoMem) : TachoMem :=
  let fan := gpio_fan_tacho_map (gpio % 32)
  if 0 < fan then
    { m with fan_tacho_counters := fun i =>
        if i = fan - 1 then (m.fan_tacho_counters i + 1) % 2 ^ 32
        else m.fan_tacho_counters i }
  else m

/-- The sampler update_tacho_input_freq: snapshot the counters, compute
the elapsed time delta (microseconds) since the last accepted sample and
return unchanged when delta < 1000000; otherwise set every channel
frequency to pulses / s with pulses the wraparound-corrected counter
delta and s = delta / 1000000 seconds, advance the baselines to the
snapshot and the accepted-sample timestamp to the read time. -/
def update_tacho_input_freq (read_time : ℤ) (m : TachoMem) : TachoMem :=
  let counters := fun i => m.fan_tacho_counters i
  let delta := read_time - m.fan_tacho_last_read
  if delta < 1000000 then m
  else
    let s : ℚ := (delta : ℚ) / 1000000
    { m with
      fan_tacho_freq := fun i =>
        if i < FAN_MAX_COUNT then
          (wsub32 (counters i) (m.fan_tacho_counters_last i) : ℚ) / s
        else m.fan_tacho_freq i,
      fan_tacho_counters_last := fun i =>
        if i < FAN_MAX_COUNT then counters i
        else m.fan_tacho_counters_last i,
      fan_tacho_last_read := read_time }

/-- Per-instance state of the lossy-peak filter (lossypeak_context_t):
tracked peak, hold delay in microseconds, decay rate (units per second),
the two monotonic timestamps, and the phase byte (0 = tracking,
1 = decaying). -/
structure LossypeakCtx where
  peak : ℚ
  delay_us : ℤ
  decay : ℚ
  last_t : ℤ
  peak_t : ℤ
  state : ℕ
deriving DecidableEq

/-- One step of lossy_peak_filter at monotonic time t_now: a new input
at or above the peak restarts tracking; otherwise the tracking phase
may transition to decaying (immediately when delay_us is not positive,
or once the hold delay since peak_t has been exceeded, carrying the
excess), and in the decaying phase the peak decays by elapsed-seconds
times decay, clamped from below by the input.  Returns the updated
context and the returned peak value. -/
def lossy_peak_filter (c : LossypeakCtx) (input : ℚ) (t_now : ℤ) :
    LossypeakCtx × ℚ :=
  if c.peak ≤ input then
    (⟨input, c.delay_us, c.decay, t_now, t_now, 0⟩, input)
  else
    let td0 : ℤ := t_now - c.last_t
    let st : ℕ × ℤ :=
      if c.state = 0 then
        if 0 < c.delay_us then
          let td1 := t_now - c.peak_t
          if c.delay_us < td1 then (1, td1 - c.delay_us) else (0, td1)
        else (1, td0)
      else (c.state, td0)
    let newPeak : ℚ :=
      if st.1 = 1 then
        let dec := ((st.2 : ℚ) / 1000000) * c.decay
        if c.peak - dec < input then input else c.peak - dec
      else c.peak
    (⟨newPeak, c.delay_us, c.decay, t_now, c.peak_t, st.1⟩, newPeak)

/-- Iterate lossy_peak_filter over a list of (input, time) samples,
keeping the evolving context. -/
def lossy_peak_run (c : LossypeakCtx) (l : List (ℚ × ℤ)) : LossypeakCtx :=
  l.foldl (fun c p => (lossy_peak_filter c p.1 p.2).1) c

/-- The peak produced by one decaying step of lossy_peak_filter with a
decay time span of td microseconds: the decayed peak, clamped from
below by the input when the input has caught up with it. -/
def lossy_peak_decayed (c : LossypeakCtx) (input : ℚ) (td : ℤ) : ℚ :=
  if c.peak - ((td : ℚ) / 1000000) * c.decay < input then input
  else c.peak - ((td : ℚ) / 1000000) * c.decay

/-- Value of an ASCII decimal digit character. -/
def digitVal (c : Char) : ℕ := c.toNat - 48

/-- Accumulating decimal evaluation of a digit string, most significant
digit first (the value strtof assigns to a digit run). -/
def parseNatF (a : ℕ) (l : List Char) : ℕ :=
  l.foldl (fun a c => 10 * a + digitVal c) a

/-- Decimal value of a digit string. -/
def parseNat (l : List Char) : ℕ := parseNatF 0 l

/-- ASCII digit character for a value below 10. -/
def digitChar10 (d : ℕ) : Char := Char.ofNat (48 + d)

/-- Decimal digits of n, least significant first, by repeated division;
the first argument is structural fuel (any fuel at or above n is exact). -/
def digitsRevAux : ℕ → ℕ → List ℕ
  | _, 0 => []
  | 0, _ + 1 => []
  | fuel + 1, n + 1 => (n + 1) % 10 :: digitsRevAux fuel ((n + 1) / 10)

/-- Decimal digits of n, least significant first. -/
def digitsRev (n : ℕ) : List ℕ := digitsRevAux n n

/-- Decimal rendering of a natural number, as printf prints it. -/
def renderNat (n : ℕ) : List Char :=
  if n = 0 then ['0'] else ((digitsRev n).map digitChar10).reverse

/-- Exactly-six-digit zero-padded decimal rendering of k < 10 ^ 6: the
fractional part emitted by the %f conversion. -/
def pad6 (k : ℕ) : List Char :=
  [digitChar10 (k / 100000 % 10), digitChar10 (k / 10000 % 10),
   digitChar10 (k / 1000 % 10), digitChar10 (k / 100 % 10),
   digitChar10 (k / 10 % 10), digitChar10 (k % 10)]

/-- The rational printed by the %f conversion for the exact value q:
q rounded to six decimal places. -/
def fmt6 (q : ℚ) : ℚ := ((round (q * 1000000) : ℤ) : ℚ) / 1000000

/-- Text emitted by the %f conversion for the exact value q: optional
minus sign, integer part, decimal point, six fractional digits. -/
def fmtF (q : ℚ) : List Char :=
  let m : ℤ := round (q * 1000000)
  (if m < 0 then ['-'] else []) ++
    renderNat (m.natAbs / 1000000) ++ '.' :: pad6 (m.natAbs % 1000000)

/-- Unsigned part of decimal-number parsing: a non-empty digit run,
optionally followed by a decimal point and a (possibly empty) digit run;
anything else fails. -/
def parseUF (s : List Char) : Option ℚ :=
  let ip := s.takeWhile Char.isDigit
  let rest := s.dropWhile Char.isDigit
  if ip = [] then none
  else
    match rest with
    | [] => some (parseNat ip)
    | c :: frac =>
      if c = '.' ∧ frac.all Char.isDigit then
        some ((parseNat ip : ℚ) + (parseNat frac : ℚ) / 10 ^ frac.length)
      else none

/-- Modelled from the spec: str_to_float (a helper defined elsewhere in
the repository, not under src/) converts a comma-separated-field token
to a number; per the spec the accepted fields are ASCII decimal numbers,
so the model accepts an optional sign followed by a decimal digit string
with an optional fractional part, and fails on anything else. -/
def str_to_float (s : List Char) : Option ℚ :=
  match s with
  | [] => none
  | c :: rest =>
    if c = '-' then (parseUF rest).map (fun q => -q)
    else if c = '+' then parseUF rest
    else parseUF s

/-- One strtok_r step with delimiter set ",": skip leading commas; fail
on an empty remainder; otherwise return the maximal comma-free token
and the remainder past the terminating comma. -/
def strtok1 (s : List Char) : Option (List Char × List Char) :=
  let s1 := s.dropWhile (fun c => c = ',')
  match s1 with
  | [] => none
  | _ :: _ =>
    some (s1.takeWhile (fun c => ¬ c = ','),
          (s1.dropWhile (fun c => ¬ c = ',')).drop 1)

/-- Truncation of a rational toward zero: the value of a C float-to-
integer conversion. -/
def ratTrunc (q : ℚ) : ℤ := if q < 0 then -⌊-q⌋ else ⌊q⌋

/-- lossy_peak_parse_args at creation time now: requires a non-null
argument string with two strtok_r tokens each accepted by str_to_float
(decay rate, then hold delay in seconds), and builds a fresh context
with zero peak, the hold delay truncated to integer microseconds, the
decay rate, last_t = now, zero peak_t and tracking state; any failure
yields NULL. -/
def lossy_peak_parse_args (args : Option (List Char)) (now : ℤ) :
    Option LossypeakCtx :=
  match args with
  | none => none
  | some s =>
    match strtok1 s with
    | none => none
    | some (tok1, rest) =>
      match str_to_float tok1 with
      | none => none
      | some decay =>
        match strtok1 rest with
        | none => none
        | some (tok2, _) =>
          match str_to_float tok2 with
          | none => none
          | some delay =>
            some ⟨0, ratTrunc (delay * 1000000), decay, now, 0, 0⟩

/-- lossy_peak_print_args: print decay and delay_us / 1000000 seconds
with the "%f,%f" format. -/
def lossy_peak_print_args (c : LossypeakCtx) : List Char :=
  fmtF c.decay ++ ',' :: fmtF ((c.delay_us : ℚ) / 1000000)

/-- ASCII lower-casing of one character, as tolower does on the ASCII
range. -/
def toLowerC (c : Char) : Char :=
  if 'A' ≤ c ∧ c ≤ 'Z' then Char.ofNat (c.toNat + 32) else c

/-- Case-insensitive string equality, as strcasecmp == 0. -/
def lcEq (a b : List Char) : Bool :=
  a.map toLowerC == b.map toLowerC

/-- One row of the filters[] registry table: the (possibly NULL) name
and the three (possibly NULL) function pointers. -/
structure FilterEntry where
  name : Option String
  parse_args_func : Option (Option (List Char) → ℤ → Option LossypeakCtx)
  print_args_func : Option (LossypeakCtx → List Char)
  filter_func : Option (LossypeakCtx → ℚ → ℤ → LossypeakCtx × ℚ)

/-- The filters[] table: the none entry (all pointers NULL), the
lossypeak entry, and the terminating sentinel row with a NULL name. -/
def filters : List FilterEntry :=
  [⟨some "none", none, none, none⟩,
   ⟨some "lossypeak", some lossy_peak_parse_args,
     some lossy_peak_print_args, some lossy_peak_filter⟩,
   ⟨none, none, none, none⟩]

/-- Loop body of str2pwm_filter: scan rows while the name is non-NULL,
returning the index of the first case-insensitive match, and
FILTER_NONE = 0 when the scan ends without a match. -/
def str2pwm_filter_go (s : List Char) (idx : ℕ) : List FilterEntry → ℕ
  | [] => 0
  | e :: rest =>
    match e.name with
    | none => 0
    | some nm => if lcEq s nm.data then idx else str2pwm_filter_go s (idx + 1) rest

/-- str2pwm_filter: resolve a filter name to its registry index. -/
def str2pwm_filter (s : List Char) : ℕ := str2pwm_filter_go s 0 filters

/-- Loop body of pwm_filter2str: scan rows while the name is non-NULL,
returning the name at the requested index, and "none" when the scan
ends first. -/
def pwm_filter2str_go (source : ℤ) (idx : ℕ) : List FilterEntry → String
  | [] => "none"
  | e :: rest =>
    match e.name with
    | none => "none"
    | some nm => if source = (idx : ℤ) then nm else pwm_filter2str_go source (idx + 1) rest

/-- pwm_filter2str: resolve a registry index (an enum value, hence any
integer) back to a filter name. -/
def pwm_filter2str (source : ℤ) : String := pwm_filter2str_go source 0 filters

/-- The array access filters[idx] of the dispatch functions: defined
only inside the table (the C access is out of bounds otherwise). -/
def filter_get (idx : ℤ) : Option FilterEntry :=
  if idx < 0 then none else filters.get? idx.toNat

/-- Dispatch function filter: return the input unchanged (and leave the
context untouched) when the selected row has a NULL filter_func,
otherwise apply the row's transform; no result models the out-of-bounds
table access. -/
def filter (idx : ℤ) (ctx : LossypeakCtx) (input : ℚ) (t_now : ℤ) :
    Option (LossypeakCtx × ℚ) :=
  match filter_get idx with
  | none => none
  | some e =>
    match e.filter_func with
    | none => some (ctx, input)
    | some f => some (f ctx input t_now)

/-- Dispatch function filter_parse_args: NULL when the selected row has
no parser, the parser's result otherwise; no result models the
out-of-bounds table access. -/
def filter_parse_args (idx : ℤ) (args : Option (List Char)) (now : ℤ) :
    Option (Option LossypeakCtx) :=
  match filter_get idx with
  | none => none
  | some e =>
    match e.parse_args_func with
    | none => some none
    | some p => some (p args now)

/-- Dispatch function filter_print_args: NULL when the selected row has
no serializer, the serializer's text otherwise; no result models the
out-of-bounds table access. -/
def filter_print_args (idx : ℤ) (ctx : LossypeakCtx) :
    Option (Option (List Char)) :=
  match filter_get idx with
  | none => none
  | some e =>
    match e.print_args_func with
    | none => some none
    | some p => some (p ctx)

/-! Theorems.  First the tachometer claims. -/

/-- C2: the unsigned subtraction of the sampler recovers the true pulse
count across counter wraparound, for any baseline and any true count
below one full 32-bit counter range.  The stored counter after p pulses
on a baseline of base is (base + p) mod 2 ^ 32. -/
theorem wsub32_recovers_pulses (base p : ℕ) (hb : base < 2 ^ 32)
    (hp : p < 2 ^ 32) : wsub32 ((base + p) % 2 ^ 32) base = p := by
  have hpow : (2 : ℕ) ^ 32 = 4294967296 := by norm_num
  unfold wsub32
  rw [hpow] at *
  omega

/-- Witness for C2 at a wrapping input: baseline 2 ^ 32 - 1, five pulses
wrap the counter to 4, and the computed delta is still 5. -/
theorem wsub32_recovers_pulses_witness :
    wsub32 ((4294967295 + 5) % 2 ^ 32) 4294967295 = 5 :=
  wsub32_recovers_pulses 4294967295 5 (by norm_num) (by norm_num)

/-- C1: a sampler call with elapsed time below one second (including
zero and negative elapsed time) returns the state unchanged; otherwise
every channel frequency becomes the wraparound pulse delta divided by
the elapsed seconds, every baseline advances to the snapshotted counter
and the accepted-sample timestamp advances to the read time. -/
theorem update_tacho_input_freq_spec (read_time : ℤ) (m : TachoMem) :
    (read_time - m.fan_tacho_last_read < 1000000 →
      update_tacho_input_freq read_time m = m) ∧
    (1000000 ≤ read_time - m.fan_tacho_last_read →
      (∀ i, i < FAN_MAX_COUNT →
        (update_tacho_input_freq read_time m).fan_tacho_freq i =
          (wsub32 (m.fan_tacho_counters i) (m.fan_tacho_counters_last i) : ℚ) /
            (((read_time - m.fan_tacho_last_read : ℤ) : ℚ) / 1000000) ∧
        (update_tacho_input_freq read_time m).fan_tacho_counters_last i =
          m.fan_tacho_counters i) ∧
      (update_tacho_input_freq read_time m).fan_tacho_last_read = read_time) := by
  constructor
  · intro h
    unfold update_tacho_input_freq
    rw [if_pos h]
  · intro h
    unfold update_tacho_input_freq
    rw [if_neg (by omega)]
    refine ⟨fun i hi => ⟨?_, ?_⟩, rfl⟩
    · simp [hi]
    · simp [hi]

/-- Witness for C1: a 0.5 second poll leaves the state untouched, and a
2 second poll with 10 fresh pulses yields 5 Hz. -/
theorem update_tacho_input_freq_spec_witness :
    update_tacho_input_freq 500000
        ⟨fun _ => 10, fun _ => 0, 0, fun _ => 0⟩ =
      (⟨fun _ => 10, fun _ => 0, 0, fun _ => 0⟩ : TachoMem) ∧
    (update_tacho_input_freq 2000000
        ⟨fun _ => 10, fun _ => 0, 0, fun _ => 0⟩).fan_tacho_freq 0 = 5 := by
  constructor
  · exact (update_tacho_input_freq_spec 500000 _).1 (by norm_num)
  · have h := ((update_tacho_input_freq_spec 2000000
      ⟨fun _ => 10, fun _ => 0, 0, fun _ => 0⟩).2 (by norm_num)).1 0
      (by norm_num [FAN_MAX_COUNT])
    rw [h.1]
    norm_num [wsub32]

/-- C3: an edge event on an unmapped pin (zero map entry) changes
nothing; an edge on a mapped pin increments exactly the mapped channel
counter (one 32-bit unsigned increment), leaves every other counter
unchanged and never touches baselines, frequencies or the
accepted-sample timestamp. -/
theorem fan_tacho_read_callback_spec (map : ℕ → ℕ) (gpio : ℕ) (m : TachoMem) :
    (map (gpio % 32) = 0 → fan_tacho_read_callback map gpio m = m) ∧
    (∀ k, map (gpio % 32) = k + 1 →
      (fan_tacho_read_callback map gpio m).fan_tacho_counters k =
        (m.fan_tacho_counters k + 1) % 2 ^ 32 ∧
      (∀ j, j ≠ k → (fan_tacho_read_callback map gpio m).fan_tacho_counters j =
        m.fan_tacho_counters j) ∧
      (fan_tacho_read_callback map gpio m).fan_tacho_counters_last =
        m.fan_tacho_counters_last ∧
      (fan_tacho_read_callback map gpio m).fan_tacho_last_read =
        m.fan_tacho_last_read ∧
      (fan_tacho_read_callback map gpio m).fan_tacho_freq = m.fan_tacho_freq) := by
  constructor
  · intro h
    unfold fan_tacho_read_callback
    rw [h]
    simp
  · intro k hk
    unfold fan_tacho_read_callback
    rw [hk]
    refine ⟨by simp, fun j hj => by simp [hj], by simp, by simp, by simp⟩

/-- Witness for C3: pin 39 masks to 7; a map sending pin 7 to channel 2
increments exactly channel 2 from 41 to 42 and leaves channel 1 alone. -/
theorem fan_tacho_read_callback_spec_witness :
    (fan_tacho_read_callback (fun p => if p = 7 then 3 else 0) 39
        ⟨fun _ => 41, fun _ => 0, 0, fun _ => 0⟩).fan_tacho_counters 2 = 42 ∧
    (fan_tacho_read_callback (fun p => if p = 7 then 3 else 0) 39
        ⟨fun _ => 41, fun _ => 0, 0, fun _ => 0⟩).fan_tacho_counters 1 = 41 := by
  have h := (fan_tacho_read_callback_spec (fun p => if p = 7 then 3 else 0) 39
    ⟨fun _ => 41, fun _ => 0, 0, fun _ => 0⟩).2 2 (by norm_num)
  refine ⟨?_, ?_⟩
  · rw [h.1]; norm_num
  · exact h.2.1 1 (by norm_num)

/-! Branch characterizations of one lossy_peak_filter step. -/

/-- An input at or above the peak restarts tracking with the input as
the new peak. -/
theorem lpf_newpeak (c : LossypeakCtx) (input : ℚ) (t_now : ℤ)
    (h : c.peak ≤ input) :
    lossy_peak_filter c input t_now =
      (⟨input, c.delay_us, c.decay, t_now, t_now, 0⟩, input) := by
  unfold lossy_peak_filter; rw [if_pos h]

/-- Tracking phase, positive hold delay already exceeded: transition to
decaying, with only the excess past the hold delay as decay span. -/
theorem lpf_transition (c : LossypeakCtx) (input : ℚ) (t_now : ℤ)
    (h1 : input < c.peak) (hs : c.state = 0) (hd : 0 < c.delay_us)
    (htr : c.delay_us < t_now - c.peak_t) :
    lossy_peak_filter c input t_now =
      (⟨lossy_peak_decayed c input (t_now - c.peak_t - c.delay_us), c.delay_us,
        c.decay, t_now, c.peak_t, 1⟩,
       lossy_peak_decayed c input (t_now - c.peak_t - c.delay_us)) := by
  unfold lossy_peak_filter lossy_peak_decayed
  rw [if_neg (not_le.mpr h1)]
  simp only [hs, hd, htr, if_true]

/-- Tracking phase, positive hold delay not yet exceeded: the peak is
held unchanged. -/
theorem lpf_holding (c : LossypeakCtx) (input : ℚ) (t_now : ℤ)
    (h1 : input < c.peak) (hs : c.state = 0) (hd : 0 < c.delay_us)
    (htr : ¬ c.delay_us < t_now - c.peak_t) :
    lossy_peak_filter c input t_now =
      (⟨c.peak, c.delay_us, c.decay, t_now, c.peak_t, 0⟩, c.peak) := by
  unfold lossy_peak_filter
  rw [if_neg (not_le.mpr h1)]
  simp only [hs, hd, htr, if_true, if_false]
  norm_num

/-- Tracking phase with a non-positive hold delay: transition to
decaying immediately, with the full time since the last call as decay
span. -/
theorem lpf_nodelay (c : LossypeakCtx) (input : ℚ) (t_now : ℤ)
    (h1 : input < c.peak) (hs : c.state = 0) (hd : ¬ 0 < c.delay_us) :
    lossy_peak_filter c input t_now =
      (⟨lossy_peak_decayed c input (t_now - c.last_t), c.delay_us, c.decay,
        t_now, c.peak_t, 1⟩,
       lossy_peak_decayed c input (t_now - c.last_t)) := by
  unfold lossy_peak_filter lossy_peak_decayed
  rw [if_neg (not_le.mpr h1)]
  simp only [hs, hd, if_true, if_false]

/-- Already in the decaying phase: decay over the full time since the
last call. -/
theorem lpf_decaying (c : LossypeakCtx) (input : ℚ) (t_now : ℤ)
    (h1 : input < c.peak) (hs : c.state = 1) :
    lossy_peak_filter c input t_now =
      (⟨lossy_peak_decayed c input (t_now - c.last_t), c.delay_us, c.decay,
        t_now, c.peak_t, 1⟩,
       lossy_peak_decayed c input (t_now - c.last_t)) := by
  unfold lossy_peak_filter lossy_peak_decayed
  rw [if_neg (not_le.mpr h1)]
  simp only [hs, if_true, if_false]
  norm_num

/-- A state byte other than 0 and 1 (never produced by the code) leaves
the peak unchanged. -/
theorem lpf_other (c : LossypeakCtx) (input : ℚ) (t_now : ℤ)
    (h1 : input < c.peak) (hs : ¬ c.state = 0) (hs1 : ¬ c.state = 1) :
    lossy_peak_filter c input t_now =
      (⟨c.peak, c.delay_us, c.decay, t_now, c.peak_t, c.state⟩, c.peak) := by
  unfold lossy_peak_filter
  rw [if_neg (not_le.mpr h1)]
  simp only [hs, hs1, if_false]

/-- The decayed peak of one decaying step never drops below the input. -/
theorem lossy_peak_decayed_ge (c : LossypeakCtx) (input : ℚ) (td : ℤ) :
    input ≤ lossy_peak_decayed c input td := by
  unfold lossy_peak_decayed
  split_ifs with h
  · exact le_refl input
  · exact not_lt.mp h

/-- With a zero decay rate a decaying step leaves the peak unchanged. -/
theorem lossy_peak_decayed_of_decay0 (c : LossypeakCtx) (input : ℚ) (td : ℤ)
    (h : c.decay = 0) (hin : input < c.peak) :
    lossy_peak_decayed c input td = c.peak := by
  unfold lossy_peak_decayed
  rw [h]
  rw [mul_zero, sub_zero, if_neg (not_lt.mpr hin.le)]

/-- One step with a zero decay rate sets the peak to the maximum of the
old peak and the input, and keeps the decay rate. -/
theorem lpf_step_decay0 (c : LossypeakCtx) (input : ℚ) (t : ℤ)
    (h : c.decay = 0) :
    (lossy_peak_filter c input t).1.peak = max c.peak input ∧
    (lossy_peak_filter c input t).1.decay = 0 := by
  by_cases h1 : c.peak ≤ input
  · rw [lpf_newpeak c input t h1]
    exact ⟨(max_eq_right h1).symm, h⟩
  · have hin : input < c.peak := not_le.mp h1
    rw [max_eq_left hin.le]
    by_cases hs : c.state = 0
    · by_cases hd : 0 < c.delay_us
      · by_cases htr : c.delay_us < t - c.peak_t
        · rw [lpf_transition c input t hin hs hd htr]
          exact ⟨lossy_peak_decayed_of_decay0 c input _ h hin, h⟩
        · rw [lpf_holding c input t hin hs hd htr]
          exact ⟨rfl, h⟩
      · rw [lpf_nodelay c input t hin hs hd]
        exact ⟨lossy_peak_decayed_of_decay0 c input _ h hin, h⟩
    · by_cases hs1 : c.state = 1
      · rw [lpf_decaying c input t hin hs1]
        exact ⟨lossy_peak_decayed_of_decay0 c input _ h hin, h⟩
      · rw [lpf_other c input t hin hs hs1]
        exact ⟨rfl, h⟩

/-- C9: with decay_rate zero the tracked peak never decreases across
any sequence of transform calls at arbitrary times, and a single call
with an input below the peak leaves the peak exactly unchanged. -/
theorem lossy_peak_decay0_spec (c : LossypeakCtx) (l : List (ℚ × ℤ))
    (h : c.decay = 0) :
    c.peak ≤ (lossy_peak_run c l).peak ∧
    (∀ input t, input < c.peak →
      (lossy_peak_filter c input t).1.peak = c.peak) := by
  constructor
  · induction l generalizing c with
    | nil => exact le_refl _
    | cons p l ih =>
      have hstep := lpf_step_decay0 c p.1 p.2 h
      have h2 : c.peak ≤ (lossy_peak_filter c p.1 p.2).1.peak := by
        rw [hstep.1]; exact le_max_left _ _
      have h3 := ih (lossy_peak_filter c p.1 p.2).1 hstep.2
      calc c.peak ≤ (lossy_peak_filter c p.1 p.2).1.peak := h2
        _ ≤ _ := h3
  · intro input t hin
    rw [(lpf_step_decay0 c input t h).1]
    exact max_eq_left hin.le

/-- Witness for C9: a zero-decay context in the decaying phase keeps
its peak of 5 across a sample far in the future. -/
theorem lossy_peak_decay0_spec_witness :
    5 ≤ (lossy_peak_run ⟨5, 0, 0, 0, 0, 1⟩ [(3, 1000000000000)]).peak ∧
    (lossy_peak_filter ⟨5, 0, 0, 0, 0, 1⟩ 3 1000000000000).1.peak = 5 := by
  have h := lossy_peak_decay0_spec ⟨5, 0, 0, 0, 0, 1⟩ [(3, 1000000000000)] rfl
  exact ⟨h.1, h.2 3 1000000000000 (by norm_num)⟩

/-- C10: every transform call returns a value at least the input (the
returned value is the new peak, which even while decaying is clamped
from below by the input), and the tracked peak only ever decreases in
the decaying phase. -/
theorem lossy_peak_invariant (c : LossypeakCtx) (input : ℚ) (t_now : ℤ) :
    input ≤ (lossy_peak_filter c input t_now).2 ∧
    (lossy_peak_filter c input t_now).2 =
      (lossy_peak_filter c input t_now).1.peak ∧
    ((lossy_peak_filter c input t_now).1.peak < c.peak →
      (lossy_peak_filter c input t_now).1.state = 1) := by
  by_cases h1 : c.peak ≤ input
  · rw [lpf_newpeak c input t_now h1]
    exact ⟨le_refl input, rfl,
      fun h2 => absurd (lt_of_le_of_lt h1 h2) (lt_irrefl _)⟩
  · have hin : input < c.peak := not_le.mp h1
    by_cases hs : c.state = 0
    · by_cases hd : 0 < c.delay_us
      · by_cases htr : c.delay_us < t_now - c.peak_t
        · rw [lpf_transition c input t_now hin hs hd htr]
          exact ⟨lossy_peak_decayed_ge c input _, rfl, fun _ => rfl⟩
        · rw [lpf_holding c input t_now hin hs hd htr]
          exact ⟨hin.le, rfl, fun h2 => absurd h2 (lt_irrefl _)⟩
      · rw [lpf_nodelay c input t_now hin hs hd]
        exact ⟨lossy_peak_decayed_ge c input _, rfl, fun _ => rfl⟩
    · by_cases hs1 : c.state = 1
      · rw [lpf_decaying c input t_now hin hs1]
        exact ⟨lossy_peak_decayed_ge c input _, rfl, fun _ => rfl⟩
      · rw [lpf_other c input t_now hin hs hs1]
        exact ⟨hin.le, rfl, fun h2 => absurd h2 (lt_irrefl _)⟩

/-- C4, amended: with a zero hold delay, an input below the peak in the
tracking phase transitions immediately to the decaying phase, and the
decay span of that very first decaying step is the full elapsed time
since the previous call (t_now - last_t), not zero. -/
theorem lossy_peak_zero_hold_spec (c : LossypeakCtx) (input : ℚ)
    (t_now : ℤ) (hd : c.delay_us = 0) (hs : c.state = 0)
    (hlt : input < c.peak) :
    lossy_peak_filter c input t_now =
      (⟨lossy_peak_decayed c input (t_now - c.last_t), c.delay_us, c.decay,
        t_now, c.peak_t, 1⟩,
       lossy_peak_decayed c input (t_now - c.last_t)) :=
  lpf_nodelay c input t_now hlt hs (by omega)

/-- Witness for C4: a peak of 10 taken at time 0 with zero hold delay
and unit decay rate decays to 8 on a zero input two seconds later. -/
theorem lossy_peak_zero_hold_spec_witness :
    lossy_peak_filter ⟨10, 0, 1, 0, 0, 0⟩ 0 2000000 =
      (⟨8, 0, 1, 2000000, 0, 1⟩, 8) := by
  rw [lossy_peak_zero_hold_spec ⟨10, 0, 1, 0, 0, 0⟩ 0 2000000 rfl rfl
    (by norm_num)]
  norm_num [lossy_peak_decayed]

/-- Counterexample for C4 as stated: were the decay span of the first
decaying step zero, the returned peak at that step would still be 10;
the code instead applies the full two seconds of decay and returns 8. -/
theorem lossy_peak_zero_hold_cex :
    (lossy_peak_filter ⟨10, 0, 1, 0, 0, 0⟩ 0 2000000).2 = 8 ∧
    ¬ (lossy_peak_filter ⟨10, 0, 1, 0, 0, 0⟩ 0 2000000).2 =
        (⟨10, 0, 1, 0, 0, 0⟩ : LossypeakCtx).peak -
          ((0 : ℚ) / 1000000) * (⟨10, 0, 1, 0, 0, 0⟩ : LossypeakCtx).decay := by
  constructor
  · norm_num [lossy_peak_filter, lossy_peak_decayed]
  · norm_num [lossy_peak_filter, lossy_peak_decayed]

/-! Registry dispatch claims. -/

/-- Case-insensitively equal strings have equal length. -/
theorem lcEq_length (a b : List Char) (h : lcEq a b = true) :
    a.length = b.length := by
  unfold lcEq at h
  have h2 : a.map toLowerC = b.map toLowerC := by
    exact beq_iff_eq.mp h
  have h3 := congrArg List.length h2
  simpa using h3

/-- C6: name resolution scans the registry case-insensitively; a string
matching lossypeak (in any case) resolves to selector 1 and every other
string, matched or not, resolves to the none selector 0; and applying
the none selector returns the input unchanged with the context
untouched, for every input and context. -/
theorem str2pwm_filter_spec (s : List Char) :
    str2pwm_filter s = (if lcEq s ("lossypeak".data) then 1 else 0) ∧
    (∀ (c : LossypeakCtx) (input : ℚ) (t : ℤ),
      filter 0 c input t = some (c, input)) := by
  constructor
  · simp only [str2pwm_filter, str2pwm_filter_go, filters]
    by_cases hn : lcEq s ("none".data)
    · have h4 : s.length = 4 := by simpa using lcEq_length s ("none".data) hn
      have h9 : ¬ lcEq s ("lossypeak".data) = true := by
        intro hb
        have h5 := lcEq_length s ("lossypeak".data) hb
        simp at h5
        omega
      simp [hn, h9]
    · simp [hn]
  · intro c input t
    rfl

/-- C5, amended: an out-of-range selector resolves to the name none in
pwm_filter2str; the dispatch functions behave as pass-through / null
for the sentinel row at index 2 (whose function pointers are all NULL);
but selectors beyond the table (negative, or at least 3) make the
dispatch functions index the filter table out of bounds rather than
fall back to the none behaviour. -/
theorem filter_out_of_range_spec (i : ℤ) (c : LossypeakCtx) (input : ℚ)
    (t now : ℤ) (args : Option (List Char)) (h0 : i ≠ 0) (h1 : i ≠ 1) :
    pwm_filter2str i = "none" ∧
    filter 2 c input t = some (c, input) ∧
    filter_parse_args 2 args now = some none ∧
    filter_print_args 2 c = some none := by
  refine ⟨?_, rfl, rfl, rfl⟩
  simp only [pwm_filter2str, pwm_filter2str_go, filters]
  simp [h0, h1]

/-- Witness for C5: selector 5 resolves to the name none, and the
sentinel row dispatches as identity and null. -/
theorem filter_out_of_range_spec_witness :
    pwm_filter2str 5 = "none" ∧
    filter 2 ⟨0, 0, 0, 0, 0, 0⟩ 7 0 = some (⟨0, 0, 0, 0, 0, 0⟩, 7) ∧
    filter_parse_args 2 none 0 = some none ∧
    filter_print_args 2 ⟨0, 0, 0, 0, 0, 0⟩ = some none :=
  filter_out_of_range_spec 5 ⟨0, 0, 0, 0, 0, 0⟩ 7 0 0 none
    (by decide) (by decide)

/-- Counterexample for C5 as stated: dispatching the transform through
selector 3 reads past the filter table (no defined result), unlike the
none selector, which passes the input through. -/
theorem filter_out_of_range_cex :
    filter 3 ⟨0, 0, 0, 0, 0, 0⟩ 7 0 = none ∧
    filter 0 ⟨0, 0, 0, 0, 0, 0⟩ 7 0 = some (⟨0, 0, 0, 0, 0, 0⟩, 7) :=
  ⟨rfl, rfl⟩

/-! Character and digit-string lemmas for the parser and printer. -/

/-- takeWhile over a satisfying prefix stops exactly at the first
failing element. -/
theorem takeWhile_append_not (p : Char → Bool) (l : List Char) (x : Char)
    (r : List Char) (hl : ∀ c ∈ l, p c = true) (hx : p x = false) :
    ((l ++ x :: r).takeWhile p) = l := by
  induction l with
  | nil => simp [List.takeWhile_cons, hx]
  | cons a t ih =>
    have ha : p a = true := hl a (by simp)
    simp only [List.cons_append, List.takeWhile_cons, ha, if_true]
    rw [ih (fun c hc => hl c (by simp [hc]))]

/-- dropWhile over a satisfying prefix drops exactly up to the first
failing element. -/
theorem dropWhile_append_not (p : Char → Bool) (l : List Char) (x : Char)
    (r : List Char) (hl : ∀ c ∈ l, p c = true) (hx : p x = false) :
    ((l ++ x :: r).dropWhile p) = x :: r := by
  induction l with
  | nil => simp [List.dropWhile_cons, hx]
  | cons a t ih =>
    have ha : p a = true := hl a (by simp)
    simp only [List.cons_append, List.dropWhile_cons, ha, if_true]
    exact ih (fun c hc => hl c (by simp [hc]))

/-- takeWhile of an everywhere-satisfying list is the list itself. -/
theorem takeWhile_all_true (p : Char → Bool) (l : List Char)
    (hl : ∀ c ∈ l, p c = true) : l.takeWhile p = l := by
  induction l with
  | nil => rfl
  | cons a t ih =>
    have ha : p a = true := hl a (by simp)
    simp only [List.takeWhile_cons, ha, if_true]
    rw [ih (fun c hc => hl c (by simp [hc]))]

/-- dropWhile of an everywhere-satisfying list is empty. -/
theorem dropWhile_all_true (p : Char → Bool) (l : List Char)
    (hl : ∀ c ∈ l, p c = true) : l.dropWhile p = [] := by
  induction l with
  | nil => rfl
  | cons a t ih =>
    have ha : p a = true := hl a (by simp)
    simp only [List.dropWhile_cons, ha, if_true]
    exact ih (fun c hc => hl c (by simp [hc]))

/-- Digit characters decode back to their value and are classified as
digits. -/
theorem digitVal_digitChar10 : ∀ d, d < 10 →
    digitVal (digitChar10 d) = d ∧ (digitChar10 d).isDigit = true := by
  decide

/-- A digit character is none of the structural characters of the
filter configuration syntax. -/
theorem isDigit_not_special (c : Char) (h : c.isDigit = true) :
    ¬ c = ',' ∧ ¬ c = '-' ∧ ¬ c = '+' ∧ ¬ c = '.' := by
  refine ⟨?_, ?_, ?_, ?_⟩ <;> (intro he; subst he; exact absurd h (by decide))

/-- Folding the decimal-evaluation step over a rendered digit list
(most significant first) recovers the rendered value on top of the
accumulator. -/
theorem parseNatF_digits (ds : List ℕ) (hds : ∀ d ∈ ds, d < 10) :
    ∀ a : ℕ, parseNatF a ((ds.map digitChar10).reverse) =
      a * 10 ^ ds.length + Nat.ofDigits 10 ds := by
  induction ds with
  | nil => intro a; simp [parseNatF, Nat.ofDigits_nil]
  | cons d ds ih =>
    intro a
    have hd : d < 10 := hds d (by simp)
    have hds2 : ∀ x ∈ ds, x < 10 := fun x hx => hds x (by simp [hx])
    simp only [List.map_cons, List.reverse_cons]
    unfold parseNatF
    rw [List.foldl_append]
    have ih2 := ih hds2 a
    unfold parseNatF at ih2
    rw [ih2]
    simp only [List.foldl_cons, List.foldl_nil, Nat.ofDigits_cons,
      List.length_cons]
    rw [(digitVal_digitChar10 d hd).1, pow_succ]
    ring

/-- All digits produced by digitsRevAux are below 10. -/
theorem digitsRevAux_lt (fuel : ℕ) : ∀ n, ∀ d ∈ digitsRevAux fuel n, d < 10 := by
  induction fuel with
  | zero =>
    intro n d hd
    cases n <;> simp [digitsRevAux] at hd
  | succ f ih =>
    intro n d hd
    cases n with
    | zero => simp [digitsRevAux] at hd
    | succ m =>
      rw [digitsRevAux] at hd
      rcases List.mem_cons.mp hd with h | h
      · subst h; exact Nat.mod_lt _ (by norm_num)
      · exact ih _ d h

/-- Given enough fuel, digitsRevAux lists the base-10 digits of its
argument. -/
theorem ofDigits_digitsRevAux (fuel : ℕ) :
    ∀ n, n ≤ fuel → Nat.ofDigits 10 (digitsRevAux fuel n) = n := by
  induction fuel with
  | zero =>
    intro n hn
    have h0 : n = 0 := Nat.le_zero.mp hn
    subst h0
    simp [digitsRevAux, Nat.ofDigits_nil]
  | succ f ih =>
    intro n hn
    cases n with
    | zero => simp [digitsRevAux, Nat.ofDigits_nil]
    | succ m =>
      rw [digitsRevAux, Nat.ofDigits_cons]
      have hd : (m + 1) / 10 ≤ f := by omega
      rw [ih _ hd]
      omega

/-- Every character of renderNat is a digit. -/
theorem renderNat_all_digits (n : ℕ) :
    ∀ c ∈ renderNat n, c.isDigit = true := by
  intro c hc
  unfold renderNat at hc
  by_cases h0 : n = 0
  · rw [if_pos h0] at hc
    simp at hc
    subst hc
    decide
  · rw [if_neg h0] at hc
    rw [List.mem_reverse] at hc
    rcases List.mem_map.mp hc with ⟨d, hd, rfl⟩
    exact (digitVal_digitChar10 d (digitsRevAux_lt n n d hd)).2

/-- renderNat never renders the empty string. -/
theorem renderNat_ne_nil (n : ℕ) : renderNat n ≠ [] := by
  unfold renderNat
  by_cases h0 : n = 0
  · rw [if_pos h0]; simp
  · rw [if_neg h0]
    simp only [ne_eq, List.reverse_eq_nil_iff, List.map_eq_nil_iff]
    obtain ⟨m, rfl⟩ := Nat.exists_eq_succ_of_ne_zero h0
    rw [digitsRev, digitsRevAux]
    simp

/-- Parsing the rendering of a natural number recovers it. -/
theorem parseNat_renderNat (n : ℕ) : parseNat (renderNat n) = n := by
  by_cases h0 : n = 0
  · subst h0; decide
  · unfold parseNat renderNat
    rw [if_neg h0]
    rw [parseNatF_digits (digitsRev n) (digitsRevAux_lt n n) 0]
    rw [digitsRev, ofDigits_digitsRevAux n n (le_refl n)]
    ring

/-- All characters of pad6 are digits. -/
theorem pad6_all_digits (k : ℕ) : ∀ c ∈ pad6 k, c.isDigit = true := by
  intro c hc
  unfold pad6 at hc
  simp only [List.mem_cons, List.not_mem_nil, or_false] at hc
  rcases hc with rfl | rfl | rfl | rfl | rfl | rfl <;>
    exact (digitVal_digitChar10 _ (Nat.mod_lt _ (by norm_num))).2

/-- Parsing the six zero-padded digits of k < 10 ^ 6 on top of an
accumulator. -/
theorem parseNatF_pad6 (a k : ℕ) (hk : k < 1000000) :
    parseNatF a (pad6 k) = a * 1000000 + k := by
  have h5 := (digitVal_digitChar10 (k / 100000 % 10) (Nat.mod_lt _ (by norm_num))).1
  have h4 := (digitVal_digitChar10 (k / 10000 % 10) (Nat.mod_lt _ (by norm_num))).1
  have h3 := (digitVal_digitChar10 (k / 1000 % 10) (Nat.mod_lt _ (by norm_num))).1
  have h2 := (digitVal_digitChar10 (k / 100 % 10) (Nat.mod_lt _ (by norm_num))).1
  have h1 := (digitVal_digitChar10 (k / 10 % 10) (Nat.mod_lt _ (by norm_num))).1
  have h0 := (digitVal_digitChar10 (k % 10) (Nat.mod_lt _ (by norm_num))).1
  unfold pad6 parseNatF
  simp only [List.foldl_cons, List.foldl_nil]
  rw [h5, h4, h3, h2, h1, h0]
  omega

/-- Value of a parsed six-digit zero-padded fraction. -/
theorem parseNat_pad6 (k : ℕ) (hk : k < 1000000) : parseNat (pad6 k) = k := by
  unfold parseNat
  rw [parseNatF_pad6 0 k hk]
  omega

/-- pad6 always renders exactly six characters. -/
theorem pad6_length (k : ℕ) : (pad6 k).length = 6 := rfl

/-- parseUF accepts the rendered integer part, dot and six-digit
fraction, and decodes the rendered value. -/
theorem parseUF_render (a b : ℕ) (hb : b < 1000000) :
    parseUF (renderNat a ++ '.' :: pad6 b) =
      some ((a : ℚ) + (b : ℚ) / 1000000) := by
  unfold parseUF
  rw [takeWhile_append_not Char.isDigit (renderNat a) '.' (pad6 b)
    (renderNat_all_digits a) (by decide)]
  rw [dropWhile_append_not Char.isDigit (renderNat a) '.' (pad6 b)
    (renderNat_all_digits a) (by decide)]
  rw [if_neg (renderNat_ne_nil a)]
  have hall : (pad6 b).all Char.isDigit = true :=
    List.all_eq_true.mpr (pad6_all_digits b)
  show (if ('.' = '.' ∧ (pad6 b).all Char.isDigit = true) then
      some ((parseNat (renderNat a) : ℚ) +
        (parseNat (pad6 b) : ℚ) / 10 ^ (pad6 b).length)
    else none) = some ((a : ℚ) + (b : ℚ) / 1000000)
  rw [if_pos (⟨rfl, hall⟩ : ('.' = '.' ∧ (pad6 b).all Char.isDigit = true))]
  rw [parseNat_renderNat a, parseNat_pad6 b hb, pad6_length]
  norm_num

example (a : ℤ) (h : a ≤ 0) : (a.natAbs : ℤ) = -a := Int.ofNat_natAbs_of_nonpos h
example (a : ℤ) (h : 0 ≤ a) : (a.natAbs : ℤ) = a := Int.natAbs_of_nonneg h

theorem str_to_float_cons (c : Char) (rest : List Char) :
    str_to_float (c :: rest) =
      if c = '-' then (parseUF rest).map (fun q => -q)
      else if c = '+' then parseUF rest
      else parseUF (c :: rest) := rfl

theorem str_to_float_fmtF (q : ℚ) : str_to_float (fmtF q) = some (fmt6 q) := by
  unfold fmtF fmt6
  dsimp only
  generalize round (q * 1000000) = m
  have hmod : m.natAbs % 1000000 < 1000000 := Nat.mod_lt _ (by norm_num)
  have hABq : ((m.natAbs / 1000000 : ℕ) : ℚ) +
      ((m.natAbs % 1000000 : ℕ) : ℚ) / 1000000 =
      ((m.natAbs : ℕ) : ℚ) / 1000000 := by
    have h : ((m.natAbs : ℕ) : ℚ) = 1000000 * ((m.natAbs / 1000000 : ℕ) : ℚ) +
        ((m.natAbs % 1000000 : ℕ) : ℚ) := by
      exact_mod_cast (Nat.div_add_mod m.natAbs 1000000).symm
    rw [h, add_div, mul_div_cancel_left₀ _ (by norm_num : (1000000 : ℚ) ≠ 0)]
  by_cases hm : m < 0
  · rw [if_pos hm]
    simp only [List.singleton_append, List.cons_append, List.nil_append]
    rw [str_to_float_cons, if_pos rfl]
    rw [parseUF_render _ _ hmod]
    simp only [Option.map_some']
    congr 1
    rw [hABq]
    have habs : ((m.natAbs : ℕ) : ℚ) = -(m : ℚ) := by
      rw [Int.cast_natAbs]
      exact_mod_cast abs_of_neg hm
    rw [habs]
    ring
  · rw [if_neg hm]
    simp only [List.nil_append]
    rcases hr : renderNat (m.natAbs / 1000000) with _ | ⟨c, t⟩
    · exact absurd hr (renderNat_ne_nil _)
    · have hc : c.isDigit = true := by
        apply renderNat_all_digits (m.natAbs / 1000000)
        rw [hr]
        simp
      have hspec := isDigit_not_special c hc
      simp only [List.cons_append]
      rw [str_to_float_cons]
      rw [if_neg hspec.2.1, if_neg hspec.2.2.1]
      rw [← List.cons_append, ← hr, parseUF_render _ _ hmod]
      congr 1
      rw [hABq]
      have habs : ((m.natAbs : ℕ) : ℚ) = (m : ℚ) := by
        rw [Int.cast_natAbs]
        exact_mod_cast abs_of_nonneg (not_lt.mp hm)
      rw [habs]

/-- No character of a %f rendering is a comma. -/
theorem fmtF_no_comma (q : ℚ) : ∀ c ∈ fmtF q, ¬ c = ',' := by
  intro c hc heq
  subst heq
  unfold fmtF at hc
  dsimp only at hc
  rw [List.mem_append, List.mem_append] at hc
  rcases hc with (hc | hc) | hc
  · split_ifs at hc
    · simp at hc
    · simp at hc
  · have h2 := renderNat_all_digits _ _ hc
    exact absurd h2 (by decide)
  · rw [List.mem_cons] at hc
    rcases hc with hc | hc
    · exact absurd hc (by decide)
    · have h2 := pad6_all_digits _ _ hc
      exact absurd h2 (by decide)

/-- A %f rendering is never empty. -/
theorem fmtF_ne_nil (q : ℚ) : fmtF q ≠ [] := by
  unfold fmtF
  dsimp only
  intro h
  rw [List.append_eq_nil] at h
  simp at h

/-- strtok_r on a comma-free non-empty token followed by a comma and a
remainder yields that token and the remainder. -/
theorem strtok1_of_append (A B : List Char) (hA : A ≠ [])
    (hAc : ∀ c ∈ A, ¬ c = ',') :
    strtok1 (A ++ ',' :: B) = some (A, B) := by
  have h2 : (A ++ ',' :: B).takeWhile (fun c => ¬ c = ',') = A :=
    takeWhile_append_not _ A ',' B (fun c hc => by simp [hAc c hc]) (by decide)
  have h3 : (A ++ ',' :: B).dropWhile (fun c => ¬ c = ',') = ',' :: B :=
    dropWhile_append_not _ A ',' B (fun c hc => by simp [hAc c hc]) (by decide)
  cases A with
  | nil => exact absurd rfl hA
  | cons a t =>
    have ha : ¬ a = ',' := hAc a (by simp)
    have h1 : ((a :: t) ++ ',' :: B).dropWhile (fun c => c = ',') =
        (a :: t) ++ ',' :: B :=
      List.dropWhile_cons_of_neg (by simp [ha])
    unfold strtok1
    rw [h1]
    show some (((a :: t) ++ ',' :: B).takeWhile (fun c => ¬ c = ','),
      (((a :: t) ++ ',' :: B).dropWhile (fun c => ¬ c = ',')).drop 1) =
      some (a :: t, B)
    rw [h2, h3]
    rfl

/-- strtok_r on a comma-free non-empty string yields the whole string
and an empty remainder. -/
theorem strtok1_of_all (B : List Char) (hB : B ≠ [])
    (hBc : ∀ c ∈ B, ¬ c = ',') :
    strtok1 B = some (B, []) := by
  cases B with
  | nil => exact absurd rfl hB
  | cons b t =>
    have hb : ¬ b = ',' := hBc b (by simp)
    have h1 : (b :: t).dropWhile (fun c => c = ',') = b :: t :=
      List.dropWhile_cons_of_neg (by simp [hb])
    have h2 : (b :: t).takeWhile (fun c => ¬ c = ',') = b :: t :=
      takeWhile_all_true _ _ (fun c hc => by simp [hBc c hc])
    have h3 : (b :: t).dropWhile (fun c => ¬ c = ',') = [] :=
      dropWhile_all_true _ _ (fun c hc => by simp [hBc c hc])
    unfold strtok1
    rw [h1]
    show some ((b :: t).takeWhile (fun c => ¬ c = ','),
      ((b :: t).dropWhile (fun c => ¬ c = ',')).drop 1) = some (b :: t, [])
    rw [h2, h3]
    rfl

/-- Six-decimal rounding is exact on integer multiples of one
millionth. -/
theorem fmt6_div_intCast (z : ℤ) :
    fmt6 ((z : ℚ) / 1000000) = (z : ℚ) / 1000000 := by
  unfold fmt6
  rw [div_mul_cancel₀ _ (by norm_num : (1000000 : ℚ) ≠ 0), round_intCast]

/-- Truncation toward zero is the identity on integers. -/
theorem ratTrunc_intCast (z : ℤ) : ratTrunc ((z : ℚ)) = z := by
  unfold ratTrunc
  split_ifs with h
  · rw [← Int.cast_neg, Int.floor_intCast]
    omega
  · exact Int.floor_intCast z

/-- Reparsing the printed text of any lossy-peak context yields a fresh
context with the same hold delay (exactly) and the decay rate rounded
to the six decimal places of the %f format. -/
theorem print_reparse (c : LossypeakCtx) (now2 : ℤ) :
    lossy_peak_parse_args (some (lossy_peak_print_args c)) now2 =
      some ⟨0, c.delay_us, fmt6 c.decay, now2, 0, 0⟩ := by
  unfold lossy_peak_print_args lossy_peak_parse_args
  dsimp only
  rw [strtok1_of_append (fmtF c.decay) (fmtF ((c.delay_us : ℚ) / 1000000))
    (fmtF_ne_nil _) (fmtF_no_comma _)]
  dsimp only
  rw [str_to_float_fmtF]
  dsimp only
  rw [strtok1_of_all _ (fmtF_ne_nil _) (fmtF_no_comma _)]
  dsimp only
  rw [str_to_float_fmtF]
  dsimp only
  rw [fmt6_div_intCast]
  rw [div_mul_cancel₀ _ (by norm_num : (1000000 : ℚ) ≠ 0), ratTrunc_intCast]

/-- Six-decimal rounding is exact on rationals with at most six decimal
places. -/
theorem fmt6_of_den_one (q : ℚ) (h : (q * 1000000).den = 1) : fmt6 q = q := by
  unfold fmt6
  have h2 : ((q * 1000000).num : ℚ) = q * 1000000 :=
    Rat.coe_int_num_of_den_eq_one h
  rw [← h2, round_intCast, h2]
  rw [mul_div_cancel_right₀ _ (by norm_num : (1000000 : ℚ) ≠ 0)]

/-- C7, amended: for every configuration text accepted by the parser,
serializing the context and reparsing reconstructs the hold delay
exactly and reconstructs the decay rate whenever it is representable
in the six decimal places of the %f format; a decay rate with more
than six decimal places is rounded by the serializer. -/
theorem lossy_peak_round_trip (s : List Char) (now now2 : ℤ)
    (c : LossypeakCtx)
    (_hparse : lossy_peak_parse_args (some s) now = some c)
    (hden : (c.decay * 1000000).den = 1) :
    lossy_peak_parse_args (some (lossy_peak_print_args c)) now2 =
      some ⟨0, c.delay_us, c.decay, now2, 0, 0⟩ := by
  rw [print_reparse, fmt6_of_den_one _ hden]

/-- Witness for C7: the text 2.5,0.5 parses, prints as
2.500000,0.500000 and reparses to the same decay rate and hold delay. -/
theorem lossy_peak_round_trip_witness :
    lossy_peak_parse_args
        (some (lossy_peak_print_args ⟨0, 500000, 5 / 2, 0, 0, 0⟩)) 7 =
      some ⟨0, 500000, 5 / 2, 7, 0, 0⟩ := by
  have h1 : lossy_peak_parse_args (some ("2.5,0.5".data)) 0 =
      some ⟨0, 500000, 5 / 2, 0, 0, 0⟩ := by
    simp +decide [lossy_peak_parse_args, strtok1, str_to_float, parseUF,
      parseNat, parseNatF, digitVal, ratTrunc, List.takeWhile, List.dropWhile,
      List.foldl]
    norm_num
  have hden : (((5 : ℚ) / 2) * 1000000).den = 1 := by
    have h2 : ((5 : ℚ) / 2) * 1000000 = ((2500000 : ℤ) : ℚ) := by norm_num
    rw [h2, Rat.den_intCast]
  exact lossy_peak_round_trip ("2.5,0.5".data) 0 7 ⟨0, 500000, 5 / 2, 0, 0, 0⟩
    h1 hden

/-- Counterexample for C7 as stated: the valid text 0.0000001,1 parses
to decay rate 1e-7, but printing rounds the decay rate to 0.000000, so
reparsing yields decay rate 0, not 1e-7 - a total loss of the value,
not a floating-point-precision deviation. -/
theorem lossy_peak_round_trip_cex :
    lossy_peak_parse_args (some ("0.0000001,1".data)) 0 =
      some ⟨0, 1000000, 1 / 10000000, 0, 0, 0⟩ ∧
    lossy_peak_parse_args
        (some (lossy_peak_print_args ⟨0, 1000000, 1 / 10000000, 0, 0, 0⟩)) 0 =
      some ⟨0, 1000000, 0, 0, 0, 0⟩ ∧
    ¬ ((1 : ℚ) / 10000000) = 0 := by
  refine ⟨?_, ?_, by norm_num⟩
  · simp +decide [lossy_peak_parse_args, strtok1, str_to_float, parseUF,
      parseNat, parseNatF, digitVal, ratTrunc, List.takeWhile, List.dropWhile,
      List.foldl]
  · rw [print_reparse]
    have hf : fmt6 ((1 : ℚ) / 10000000) = 0 := by
      unfold fmt6
      have hr : round ((1 : ℚ) / 10000000 * 1000000) = 0 := by
        rw [round_eq]
        have h35 : (1 : ℚ) / 10000000 * 1000000 + 1 / 2 = 3 / 5 := by norm_num
        rw [h35]
        exact Int.floor_eq_iff.mpr ⟨by norm_num, by norm_num⟩
      rw [hr]
      norm_num
    rw [hf]

/-- strtok_r fails on a string consisting only of delimiters. -/
theorem strtok1_none_of_all_comma (s : List Char) (h : ∀ c ∈ s, c = ',') :
    strtok1 s = none := by
  have h1 : s.dropWhile (fun c => c = ',') = [] :=
    dropWhile_all_true _ _ (fun c hc => by simp [h c hc])
  unfold strtok1
  rw [h1]

/-- C8: creation returns NULL on an absent argument string, on a string
with fewer than two comma-separated fields, and on a field rejected by
str_to_float; on success the context always has zero peak, tracking
state, creation timestamp, zero peak time, the parsed decay rate, and
the parsed hold delay truncated to integer microseconds.  The registry
create for the none selector has no parser and returns NULL; for the
lossypeak selector it delegates to lossy_peak_parse_args. -/
theorem lossy_peak_parse_args_spec (now : ℤ) :
    lossy_peak_parse_args none now = none ∧
    (∀ s : List Char, (∀ c ∈ s, c = ',') →
      lossy_peak_parse_args (some s) now = none) ∧
    (∀ s : List Char, (∀ c ∈ s, ¬ c = ',') →
      lossy_peak_parse_args (some s) now = none) ∧
    (∀ s t1 r, strtok1 s = some (t1, r) → str_to_float t1 = none →
      lossy_peak_parse_args (some s) now = none) ∧
    (∀ s t1 r t2 r2, strtok1 s = some (t1, r) → strtok1 r = some (t2, r2) →
      str_to_float t2 = none → lossy_peak_parse_args (some s) now = none) ∧
    (∀ s c, lossy_peak_parse_args (some s) now = some c →
      c.peak = 0 ∧ c.state = 0 ∧ c.last_t = now ∧ c.peak_t = 0 ∧
      ∃ t1 r t2 r2 d dl, strtok1 s = some (t1, r) ∧
        str_to_float t1 = some d ∧ strtok1 r = some (t2, r2) ∧
        str_to_float t2 = some dl ∧
        c.decay = d ∧ c.delay_us = ratTrunc (dl * 1000000)) ∧
    (∀ args, filter_parse_args 0 args now = some none) ∧
    (∀ args, filter_parse_args 1 args now =
      some (lossy_peak_parse_args args now)) := by
  refine ⟨rfl, ?_, ?_, ?_, ?_, ?_, fun _ => rfl, fun _ => rfl⟩
  · intro s h
    unfold lossy_peak_parse_args
    dsimp only
    rw [strtok1_none_of_all_comma s h]
  · intro s h
    cases s with
    | nil =>
      rfl
    | cons b t =>
      unfold lossy_peak_parse_args
      dsimp only
      rw [strtok1_of_all (b :: t) (by simp) h]
      dsimp only
      cases hf : str_to_float (b :: t) with
      | none => rfl
      | some d => rfl
  · intro s t1 r h1 h2
    unfold lossy_peak_parse_args
    dsimp only
    rw [h1]
    dsimp only
    rw [h2]
  · intro s t1 r t2 r2 h1 h2 h3
    unfold lossy_peak_parse_args
    dsimp only
    rw [h1]
    dsimp only
    cases hf : str_to_float t1 with
    | none => rfl
    | some d =>
      dsimp only
      rw [h2]
      dsimp only
      rw [h3]
  · intro s c hc
    unfold lossy_peak_parse_args at hc
    dsimp only at hc
    cases h1 : strtok1 s with
    | none => rw [h1] at hc; exact absurd hc (by simp)
    | some p =>
      obtain ⟨t1, r⟩ := p
      rw [h1] at hc
      dsimp only at hc
      cases h2 : str_to_float t1 with
      | none => rw [h2] at hc; exact absurd hc (by simp)
      | some d =>
        rw [h2] at hc
        dsimp only at hc
        cases h3 : strtok1 r with
        | none => rw [h3] at hc; exact absurd hc (by simp)
        | some p2 =>
          obtain ⟨t2, r2⟩ := p2
          rw [h3] at hc
          dsimp only at hc
          cases h4 : str_to_float t2 with
          | none => rw [h4] at hc; exact absurd hc (by simp)
          | some dl =>
            rw [h4] at hc
            dsimp only at hc
            have hceq := (Option.some.inj hc).symm
            subst hceq
            exact ⟨rfl, rfl, rfl, rfl, t1, r, t2, r2, d, dl, rfl, h2, h3, h4,
              rfl, rfl⟩

/-- Witness for C8: a single-field text and a non-numeric first field
are both rejected. -/
theorem lossy_peak_parse_args_spec_witness :
    lossy_peak_parse_args (some ("1.5".data)) 0 = none ∧
    lossy_peak_parse_args (some ("abc,1".data)) 0 = none := by
  constructor
  · exact (lossy_peak_parse_args_spec 0).2.2.1 ("1.5".data) (by decide)
  · exact (lossy_peak_parse_args_spec 0).2.2.2.1 ("abc,1".data) ("abc".data)
      ("1".data) (by decide) (by decide)
